import Mathlib

/-!
Shallow embedding of the nostr-mail synchronization / decryption / aggregation
engine (sources: `src/app/util.py`, `src/app/conversations.py`,
`src/nostrmail/utils.py`, `src/nostrmail/callbacks.py`).

Conventions used throughout:
* Python exceptions are modelled with `Except String`; the string names the
  Python exception that would be raised.
* External cryptographic primitives (ECDH + symmetric cipher behind
  `priv_key.decrypt_message`, Schnorr signatures behind `event.verify()`) are
  oracles passed in as function parameters, mirroring the spec's "external
  collaborators" contract.
* `created_at` timestamps are `Nat` unix seconds; `event.date_time()` and
  `pd.Timestamp(created_at)` are strictly monotone images of `created_at`, so
  the embedding orders by `created_at` directly.
-/

set_option autoImplicit false

namespace NostrMail

/-- Wire shape of a nostr event (spec section 6; `pynostr.event.Event`):
`{id, pubkey, created_at, kind, tags, content, sig}`. -/
structure NEvent where
  id : String
  pubkey : String
  created_at : Nat
  kind : Nat
  tags : List (List String)
  content : String
  sig : String
deriving DecidableEq, Repr

/-! ## Python dict helpers

`dict(event.tags)` turns a list of 2-element lists into a dict (later keys
overwrite earlier ones); a tag that is not a 2-element list raises
`ValueError`.  `assocPut` is the semantics of `d[k] = v` on a Python dict
(replace in place if the key exists, else append); `assocGet` is `d.get(k)`. -/

/-- Semantics of `d[k] = v` on a Python dict: replace in place, else append. -/
def assocPut {α β : Type} [DecidableEq α] : List (α × β) → α → β → List (α × β)
  | [], k, v => [(k, v)]
  | (k', v') :: rest, k, v =>
    if k' = k then (k, v) :: rest else (k', v') :: assocPut rest k v

/-- Semantics of `d.get(k)` on a Python dict. -/
def assocGet {α β : Type} [DecidableEq α] : List (α × β) → α → Option β
  | [], _ => none
  | (k', v') :: rest, k => if k' = k then some v' else assocGet rest k

/-- Semantics of `dict(pairs)` applied to `event.tags`: every tag must be a
2-element list, otherwise Python raises `ValueError`. -/
def tagPairs : List (List String) → Except String (List (String × String))
  | [] => .ok []
  | [k, v] :: rest => (tagPairs rest).map (fun ps => (k, v) :: ps)
  | _ => .error "ValueError: dictionary update sequence element is not a pair"

/-- Lookup in a dict built by `dict(pairs)`: with duplicate keys the later
binding wins, so the last matching pair is returned. -/
def dictLookup (ps : List (String × String)) (k : String) : Option String :=
  ((ps.filter (fun p => p.1 = k)).getLast?).map Prod.snd

/-! ## `get_encryption_iv` (`src/app/util.py:464`, `src/nostrmail/utils.py:250`)

Python: `msg.split('?iv=')[-1].strip('==')` — the substring after the last
occurrence of `"?iv="` (the whole string when the marker is absent), with `'='`
characters stripped from both ends (`strip('==')` strips the character set
`{'='}`). -/

/-- Does the character list contain an occurrence of the `"?iv="` marker? -/
def hasIvMarker : List Char → Bool
  | '?' :: 'i' :: 'v' :: '=' :: _ => true
  | _ :: rest => hasIvMarker rest
  | [] => false

/-- Suffix after the last occurrence of `"?iv="` under Python's left-to-right
non-overlapping `str.split` scan; the whole list when the marker is absent. -/
def afterLastIvMarker : List Char → List Char
  | [] => []
  | '?' :: 'i' :: 'v' :: '=' :: rest => afterLastIvMarker rest
  | c :: rest => if hasIvMarker rest then afterLastIvMarker rest else c :: rest

/-- Python `s.strip('==')`: drop `'='` characters from both ends. -/
def stripEqChars (l : List Char) : List Char :=
  ((l.dropWhile (fun c => c = '=')).reverse.dropWhile (fun c => c = '=')).reverse

/-- `get_encryption_iv(msg)`: extract the iv blob from an encrypted payload. -/
def get_encryption_iv (msg : String) : String :=
  ⟨stripEqChars (afterLastIvMarker msg.toList)⟩

/-! ## The local key and the decryption oracle

`priv_key.decrypt_message(content, counterpart_pub_hex)` is an external ECDH +
AES primitive; it either returns the plaintext or raises (wrong counterpart,
corrupt payload).  We carry it as an oracle bundled with the local public key,
mirroring `pynostr.key.PrivateKey`. -/

structure PrivKey where
  pub : String
  decrypt : String → String → Except String String

/-! ## `decrypt_dm_events` (`src/app/util.py:482-494`)

```
dms = defaultdict(dict)
for event in events:
    from_pubkey = event.pubkey
    to_pubkey = dict(event.tags)['p']
    conv_key = tuple(sorted([from_pubkey, to_pubkey]))
    if priv_key.public_key.hex() == from_pubkey:
        decrypted = priv_key.decrypt_message(event.content, to_pubkey)
    else:
        decrypted = priv_key.decrypt_message(event.content, from_pubkey)
    iv = get_encryption_iv(event.content)
    dms[conv_key][iv] = dict(decrypted=decrypted, time=event.date_time(),
                             from_pubkey=from_pubkey)
return dms
```
No exception in the body is caught, so any failure propagates to the caller. -/

/-- Python's lexicographic string order, on code points. -/
def charsLe : List Char → List Char → Bool
  | [], _ => true
  | _ :: _, [] => false
  | c :: cs, d :: ds =>
    if c.toNat < d.toNat then true
    else if d.toNat < c.toNat then false
    else charsLe cs ds

def pyStrLe (a b : String) : Bool := charsLe a.toList b.toList

/-- `tuple(sorted([a, b]))`: the unordered participant pair, sorted. -/
def sortPair (a b : String) : String × String :=
  if pyStrLe a b then (a, b) else (b, a)

/-- One value of the inner dict: `dict(decrypted=..., time=..., from_pubkey=...)`. -/
structure DmEntry where
  decrypted : String
  time : Nat
  from_pubkey : String
deriving DecidableEq, Repr

/-- The `defaultdict(dict)` result of `decrypt_dm_events`: conversation key
(sorted pubkey pair) to iv to entry. -/
abbrev DmMap := List ((String × String) × List (String × DmEntry))

/-- The loop body of `decrypt_dm_events` for one event. -/
def dmEventStep (priv : PrivKey) (dms : DmMap) (e : NEvent) : Except String DmMap :=
  match tagPairs e.tags with
  | .error msg => .error msg
  | .ok ps =>
    match dictLookup ps "p" with
    | none => .error "KeyError: p"
    | some to_pubkey =>
      let conv_key := sortPair e.pubkey to_pubkey
      match (if priv.pub = e.pubkey
             then priv.decrypt e.content to_pubkey
             else priv.decrypt e.content e.pubkey) with
      | .error msg => .error msg
      | .ok decrypted =>
        let iv := get_encryption_iv e.content
        let inner := (assocGet dms conv_key).getD []
        .ok (assocPut dms conv_key
              (assocPut inner iv ⟨decrypted, e.created_at, e.pubkey⟩))

/-- The loop of `decrypt_dm_events`, threading the `dms` accumulator. -/
def decryptDmLoop (priv : PrivKey) : DmMap → List NEvent → Except String DmMap
  | dms, [] => .ok dms
  | dms, e :: rest =>
    match dmEventStep priv dms e with
    | .error msg => .error msg
    | .ok dms' => decryptDmLoop priv dms' rest

/-- `decrypt_dm_events(events, priv_key)` (`src/app/util.py:482`). -/
def decrypt_dm_events (events : List NEvent) (priv : PrivKey) : Except String DmMap :=
  decryptDmLoop priv [] events

/-! ## The persisted event store (`src/app/util.py:496-517`)

`save_event_to_db(table_name, id=None, **event)` does `db[id] = event` on a
`SqliteDict` table: a key-value mapping from the nostr event id to the event's
remaining fields (`event.to_dict()` minus the id, which becomes the key).
"Merging" a batch of fetched events (the loop at `src/app/util.py:333-336`)
is a left fold of such puts. -/

/-- The persisted projection of an event: `event.to_dict()` with the `id` key
split off as the database key. -/
structure StoredEvent where
  pubkey : String
  created_at : Nat
  kind : Nat
  tags : List (List String)
  content : String
  sig : String
deriving DecidableEq, Repr

/-- What `save_event_to_db('dm', **event.to_dict())` stores under `event.id`. -/
def toRecord (e : NEvent) : StoredEvent :=
  ⟨e.pubkey, e.created_at, e.kind, e.tags, e.content, e.sig⟩

/-- A `SqliteDict` table keyed by event id. -/
abbrev Store := String → Option StoredEvent

/-- `db[k] = v` on the store. -/
def storePut (st : Store) (k : String) (v : StoredEvent) : Store :=
  fun k' => if k' = k then some v else st k'

/-- The merge loop of `NostrRelayManager.get_dms`
(`for event in events_: save_event_to_db('dm', **event.to_dict())`). -/
def mergeStore (S : List NEvent) (st : Store) : Store :=
  S.foldl (fun acc e => storePut acc e.id (toRecord e)) st

/-- The record the merge loop leaves under key `k`: the last event of `S`
with `id = k`, if any. -/
def lastRec : List NEvent → String → Option StoredEvent
  | [], _ => none
  | e :: S, k =>
    match lastRec S k with
    | some r => some r
    | none => if e.id = k then some (toRecord e) else none

/-! ## The conversations-screen decryption loop
(`src/app/conversations.py:42-74`)

```
for e in dm_events:
    if e is None: continue
    dm = dict(valid=True, created_at=e['created_at'], event_id=e['id'],
              author=e['pubkey'], content=e['content'], **dict(e['tags']))
    try:
        decrypted = priv_key.decrypt_message(dm['content'], dm['p'])
    except Exception as e:
        try:
            decrypted = priv_key.decrypt_message(dm['content'], dm['author'])
        except Exception as e:
            decrypted = json.dumps(dm, indent=4)
        dm['decrypted'] = decrypted
    dms.append(dm)
```
Note where `dm['decrypted'] = decrypted` sits: inside the **outer except
block**.  When the first attempt succeeds the computed plaintext is dropped
and the dict never receives a `'decrypted'` key; `schedule_update_ui` then
reads `dm['decrypted']` for every dm, which raises `KeyError` for exactly
those events. -/

/-- The dm dict built by `update_ui_with_dms`.  `extra` is the splatted
`dict(e['tags'])`; `decrypted = none` models the absence of the
`'decrypted'` key. -/
structure ConvDm where
  valid : Bool
  created_at : Nat
  event_id : String
  author : String
  content : String
  extra : List (String × String)
  decrypted : Option String
deriving DecidableEq, Repr

/-- The diagnostic dump `json.dumps(dm, indent=4)` of a dm dict that has no
`'decrypted'` key yet: a rendering that carries the visible fields (the exact
JSON layout is immaterial to the claims). -/
def jsonDump (dm : ConvDm) : String :=
  "\x7b\"valid\": " ++ toString dm.valid ++
  ", \"created_at\": " ++ toString dm.created_at ++
  ", \"event_id\": \"" ++ dm.event_id ++
  "\", \"author\": \"" ++ dm.author ++
  "\", \"content\": \"" ++ dm.content ++
  "\", \"tags\": " ++ toString dm.extra ++ "\x7d"

/-- The per-event body of `update_ui_with_dms`.  The `dict(e['tags'])`
conversion sits outside the try/except, so a malformed tag raises; a missing
`'p'` key raises `KeyError` inside the first try and is caught by the
fallback chain. -/
def update_ui_dm (priv : PrivKey) (e : NEvent) : Except String ConvDm :=
  match tagPairs e.tags with
  | .error msg => .error msg
  | .ok ps =>
    let dm : ConvDm := ⟨true, e.created_at, e.id, e.pubkey, e.content, ps, none⟩
    match (match dictLookup ps "p" with
           | some tp => priv.decrypt dm.content tp
           | none => .error "KeyError: p") with
    | .ok _ => .ok dm
    | .error _ =>
      match priv.decrypt dm.content dm.author with
      | .ok d => .ok { dm with decrypted := some d }
      | .error _ => .ok { dm with decrypted := some (jsonDump dm) }

/-- The loop of `update_ui_with_dms`: skip `None` entries, process the rest. -/
def update_ui_with_dms (priv : PrivKey) : List (Option NEvent) → Except String (List ConvDm)
  | [] => .ok []
  | none :: rest => update_ui_with_dms priv rest
  | some e :: rest =>
    match update_ui_dm priv e with
    | .error msg => .error msg
    | .ok dm =>
      match update_ui_with_dms priv rest with
      | .error msg => .error msg
      | .ok dms => .ok (dm :: dms)

/-- `schedule_update_ui` renders `dm['decrypted']` for every dm
(`src/app/conversations.py:85-87`); a dm without that key raises `KeyError`. -/
def schedule_update_ui : List ConvDm → Except String (List String)
  | [] => .ok []
  | dm :: rest =>
    match dm.decrypted with
    | none => .error "KeyError: decrypted"
    | some s =>
      match schedule_update_ui rest with
      | .error msg => .error msg
      | .ok ss => .ok (s :: ss)

/-! ## The fetch drain loop (`src/app/util.py:240-257`,
`src/nostrmail/utils.py:68-82`)

```
events = []
while relay_manager.message_pool.has_events():
    event_msg = relay_manager.message_pool.get_event()
    if returns == 'content':
        if kind == 'meta': content = json.loads(event_msg.event.content)
        else: content = event_msg.event.content
    elif returns == 'event':
        content = event_msg.event
    events.append(content)
return events
```
The inbound message pool is modelled as the queue of events it will deliver;
the loop drains it in order.  No seen-id set appears anywhere in this loop:
whatever the pool delivers is appended verbatim. -/

inductive GKind | text | meta | dm
deriving DecidableEq, Repr

inductive GReturns | content | event
deriving DecidableEq, Repr

/-- One yielded element: a raw event, a raw content string, or (for
`kind='meta'`, `returns='content'`) the `json.loads` of the content. -/
inductive FetchItem where
  | ev (e : NEvent)
  | txt (s : String)
  | obj (m : List (String × String))
deriving DecidableEq, Repr

/-- Body of the drain loop for one queued event; `jsonLoads` is the external
`json.loads`, which may raise. -/
def drainStep (jsonLoads : String → Except String (List (String × String)))
    (kind : GKind) (returns : GReturns) (e : NEvent) : Except String FetchItem :=
  match returns with
  | .content =>
    match kind with
    | .meta => (jsonLoads e.content).map .obj
    | _ => .ok (.txt e.content)
  | .event => .ok (.ev e)

/-- The drain loop of `get_events` over the pool queue. -/
def get_events_drain (jsonLoads : String → Except String (List (String × String)))
    (kind : GKind) (returns : GReturns) : List NEvent → Except String (List FetchItem)
  | [] => .ok []
  | e :: rest =>
    match drainStep jsonLoads kind returns e with
    | .error msg => .error msg
    | .ok c =>
      match get_events_drain jsonLoads kind returns rest with
      | .error msg => .error msg
      | .ok cs => .ok (c :: cs)

/-- The ids of the events yielded by a fetch. -/
def yieldedIds : List FetchItem → List String :=
  List.filterMap (fun c => match c with | .ev e => some e.id | _ => none)

/-! ## `load_user_profile` (`src/nostrmail/utils.py:228-234`)

```
profile_events = get_events(pub_key_hex, 'meta')
if len(profile_events) > 0:
    profile = profile_events[0]
    return profile
```
`get_events(..., 'meta')` uses the default `returns='content'`, so
`profile_events` is the `json.loads` of each pool event's content in pool
arrival order; the function returns the FIRST element (or `None` when the
list is empty) — no timestamp comparison and no identity-claim handling
anywhere on this path. -/

/-- Model of `load_user_profile`: the first parsed metadata event in pool
arrival order, `none` when the pool yielded nothing. -/
def load_user_profile (jsonLoads : String → Except String (List (String × String)))
    (pool : List NEvent) : Except String (Option FetchItem) :=
  match get_events_drain jsonLoads GKind.meta GReturns.content pool with
  | .error msg => .error msg
  | .ok profile_events =>
    match profile_events with
    | [] => .ok none
    | p :: _ => .ok (some p)

/-! ## Python `sorted` (stable, ascending by a numeric key)

`sorted(items, key=...)` in `fetch_profile_data` and the `sort_index` of
`update_inbox` order by a single numeric key; stable insertion sort is the
reference model. -/

def insertLe {α : Type} (key : α → Nat) (x : α) : List α → List α
  | [] => [x]
  | y :: ys => if key x ≤ key y then x :: y :: ys else y :: insertLe key x ys

def pySortOn {α : Type} (key : α → Nat) : List α → List α
  | [] => []
  | x :: xs => insertLe key x (pySortOn key xs)

/-! ## Profile aggregation (`NostrRelayManager.fetch_profile_data`,
`src/app/util.py:117-193`)

```
for url in relay_list.get_url_list():
    event_list = events.get_events_by_url(url)
    if len(event_list) == 0: continue
    try:
        events_by_relay[url] = {
            "timestamp": event_list[0].event.date_time(),
            "metadata": Metadata.from_event(event_list[0].event).metadata_to_dict()}
    except JSONDecodeError:
        continue
relay_list_sorted = sorted(events_by_relay.items(), key=lambda item: item[1]["timestamp"])
result = {'latest_metadata_url': relay_list_sorted[-1][0],
          'latest_metadata': relay_list_sorted[-1][1]["metadata"]}
if 'identities' in relay_list_sorted[-1][1]["metadata"]:
    result['identities_info'] = [...claim_type/identity/proof of each identity...]
profile_data = result['latest_metadata']
return profile_data
```
`Metadata.from_event(...).metadata_to_dict()` is the external JSON parse of
the metadata event content — an oracle `parse` returning `none` on
`JSONDecodeError`.  On an empty candidate list, `relay_list_sorted[-1]`
raises `IndexError`. -/

structure IdentityClaim where
  claim_type : String
  identity : String
  proof : String
deriving DecidableEq, Repr

/-- The parsed metadata dict.  `identities = some l` models the dict
containing an `'identities'` key (the identity-claim array); general
name/value fields are kept in `fields`. -/
structure ProfileMetadata where
  fields : List (String × String)
  identities : Option (List IdentityClaim)
deriving DecidableEq, Repr

/-- Events one relay returned for the metadata subscription. -/
structure RelayResult where
  url : String
  events : List NEvent
deriving DecidableEq, Repr

/-- One entry of `events_by_relay`: first event's timestamp plus its parsed
metadata. -/
structure Candidate where
  timestamp : Nat
  metadata : ProfileMetadata
deriving DecidableEq, Repr

/-- One relay's contribution: skipped when it returned no events or when the
metadata parse raises `JSONDecodeError`. -/
def relayCandidate (parse : String → Option ProfileMetadata) (r : RelayResult) :
    Option Candidate :=
  match r.events with
  | [] => none
  | e :: _ => (parse e.content).map (fun m => ⟨e.created_at, m⟩)

/-- `events_by_relay.items()`: the successfully parsed candidates in relay
order. -/
def eventsByRelay (parse : String → Option ProfileMetadata) (rs : List RelayResult) :
    List (String × Candidate) :=
  rs.filterMap (fun r => (relayCandidate parse r).map (fun c => (r.url, c)))

/-- The `result` dict built at `src/app/util.py:176-189`. -/
structure ProfileResult where
  latest_metadata_url : String
  latest_metadata : ProfileMetadata
  identities_info : Option (List IdentityClaim)
deriving DecidableEq, Repr

/-- `fetch_profile_data`'s aggregation: sort the parsed candidates by
timestamp ascending, take the last (`[-1]`, raising `IndexError` when there
is none) and build the `result` dict; `identities_info` is attached when the
winning metadata has an `'identities'` key. -/
def fetch_profile_result (parse : String → Option ProfileMetadata)
    (rs : List RelayResult) : Except String ProfileResult :=
  match (pySortOn (fun p => p.2.timestamp) (eventsByRelay parse rs)).getLast? with
  | none => .error "IndexError: list index out of range"
  | some (url, c) => .ok ⟨url, c.metadata, c.metadata.identities⟩

/-- The value `fetch_profile_data` actually returns:
`profile_data = result['latest_metadata']`. -/
def fetch_profile_data (parse : String → Option ProfileMetadata)
    (rs : List RelayResult) : Except String ProfileMetadata :=
  (fetch_profile_result parse rs).map (fun r => r.latest_metadata)

/-! ## Subscription lifecycle (`src/app/util.py:93-105` and 148-158)

`temporary_subscription` is a contextmanager: `add_subscription` on entry and
`close_subscription_on_all_relays` in a `finally`, so the close is issued
whether the body completes or raises; `fetch_profile_data` instead calls
`add_subscription_on_all_relays` directly and returns without ever closing.
We model the calls each operation issues as a trace of actions. -/

inductive SubAction where
  | subscribe (id : String)
  | close (id : String)
deriving DecidableEq, Repr

/-- Whether the body of the `with` block completed or raised. -/
inductive BodyOutcome | success | exception
deriving DecidableEq, Repr

/-- Actions issued by `with temporary_subscription(filters) as sid: body`.
The `finally` close runs on both exit paths (on the exception path the
exception is re-raised after the close). -/
def temporary_subscription_trace (sid : String) (body : List SubAction)
    (o : BodyOutcome) : List SubAction :=
  match o with
  | .success => SubAction.subscribe sid :: (body ++ [SubAction.close sid])
  | .exception => SubAction.subscribe sid :: (body ++ [SubAction.close sid])

/-- Actions issued by `fetch_profile_data` (`src/app/util.py:148-158`):
`add_subscription_on_all_relays(subscription_id, filters)` then `run_sync()`
and the event collection; no close call appears anywhere in the function. -/
def fetch_profile_data_trace (sid : String) : List SubAction :=
  [SubAction.subscribe sid]

def countSubscribe (sid : String) (tr : List SubAction) : Nat :=
  (tr.filter (fun a => a = SubAction.subscribe sid)).length

def countClose (sid : String) (tr : List SubAction) : Nat :=
  (tr.filter (fun a => a = SubAction.close sid)).length

/-! ## `publish_message` (`src/app/util.py:107-115`)

```
try:
    super().publish_message(message)
except WebSocketConnectionClosedException as e:
    self.logger.warning(...); self.run_sync()
except Exception as e:
    self.logger.error(...)
```
Every exception is caught: the closed-connection case triggers exactly one
`run_sync()` reconnect pass, any other error is only logged.  Nothing is
re-raised, so the caller always sees a normal return. -/

/-- How the transport behaves on the publish attempt. -/
inductive PubAttempt where
  | ok
  | closedConn
  | otherError
deriving DecidableEq, Repr

/-- What the caller of `publish_message` can observe, plus whether the
message was actually handed to the transport. -/
structure PubOutcome where
  raised : Bool
  delivered : Bool
  syncRuns : Nat
deriving DecidableEq, Repr

/-- `NostrRelayManager.publish_message`; `resync` is the external fact of
whether the single `run_sync()` pass redelivers the queued message. -/
def publish_message (attempt : PubAttempt) (resync : Bool) : PubOutcome :=
  match attempt with
  | .ok => ⟨false, true, 0⟩
  | .closedConn => ⟨false, resync, 1⟩
  | .otherError => ⟨false, false, 0⟩

/-! ## The two `get_dms` pipelines

`src/nostrmail/utils.py:130-156` verifies each event's signature and marks
failures with `valid=False`; `src/app/util.py:323-341`
(`NostrRelayManager.get_dms`) carries a docstring promising the same marking
but performs no verification at all: every fetched event is merged into the
store and handed to `decrypt_dm_events`. -/

/-- One element of the list `get_dms` (nostrmail variant) returns. -/
inductive NmDm where
  | invalid (event_id : String)
  | valid (time : Nat) (event_id : String) (author : String) (content : String)
      (tags : List (String × String))
deriving DecidableEq, Repr

/-- Loop body of nostrmail `get_dms`: `verify` is the external
`event.verify()` signature check. -/
def nostrmail_dm_step (verify : NEvent → Bool) (pub_key_hex : String)
    (e : NEvent) : Except String NmDm :=
  if verify e then
    match tagPairs e.tags with
    | .error msg => .error msg
    | .ok ps =>
      match dictLookup ps "p" with
      | none => .error "KeyError: p"
      | some p =>
        if p = pub_key_hex then .ok (.valid e.created_at e.id e.pubkey e.content ps)
        else if e.pubkey = pub_key_hex then
          .ok (.valid e.created_at e.id e.pubkey e.content ps)
        else .error "AssertionError: pub key not associated with dm"
  else .ok (.invalid e.id)

/-- `get_dms(pub_key_hex)` from `src/nostrmail/utils.py:130`. -/
def nostrmail_get_dms (verify : NEvent → Bool) (pub_key_hex : String) :
    List NEvent → Except String (List NmDm)
  | [] => .ok []
  | e :: rest =>
    match nostrmail_dm_step verify pub_key_hex e with
    | .error msg => .error msg
    | .ok dm =>
      match nostrmail_get_dms verify pub_key_hex rest with
      | .error msg => .error msg
      | .ok dms => .ok (dm :: dms)

/-- `NostrRelayManager.get_dms` (`src/app/util.py:323-341`): events from the
store plus the freshly fetched batch, all fed to `decrypt_dm_events` with no
signature verification in between. -/
def app_get_dms (priv : PrivKey) (db_events fresh_events : List NEvent) :
    Except String DmMap :=
  decrypt_dm_events (db_events ++ fresh_events) priv

/-! ## Conversation threading (`src/nostrmail/callbacks.py:279-283`)

```
for conv_id, conv in dms.groupby('conv'):
    conv.set_index('time', inplace=True)
    conv.sort_index(ascending=True, inplace=True)
```
`conv` is the tuple `tuple(sorted((e.author, e.p)))` assigned by `get_convs`;
grouping keeps arrival order within each bucket, and the bucket is then
sorted by the `time` index alone — no other column takes part in the sort. -/

/-- One row of the dms DataFrame, as used by the threading step. -/
structure Msg where
  time : Nat
  event_id : String
  author : String
  p : String
deriving DecidableEq, Repr

/-- `get_convs`: the unordered participant pair of a dm row. -/
def convOf (m : Msg) : String × String := sortPair m.author m.p

/-- One conversation bucket of `update_inbox`: the rows of the group in
arrival order, sorted by timestamp ascending. -/
def threadBucket (msgs : List Msg) (ck : String × String) : List Msg :=
  pySortOn (fun m => m.time) (msgs.filter (fun m => convOf m = ck))

/-! ## Concrete inputs used by the closed theorems and witnesses below -/

/-- A direct message addressed to the local user, with a `p` tag. -/
def c1_event : NEvent :=
  ⟨"id0", "alice", 100, 4, [["p", "bob"]], "Q0FGRQ==?iv=SVZJVg==", "sig0"⟩

/-- A local key whose decryption oracle succeeds immediately (the first,
tag-derived counterpart is the right one). -/
def c1_priv : PrivKey := ⟨"alice", fun _ _ => .ok "hello"⟩

/-- The dm dict `update_ui_with_dms` builds for `c1_event`: note the missing
`'decrypted'` key. -/
def c1_dm : ConvDm :=
  ⟨true, 100, "id0", "alice", "Q0FGRQ==?iv=SVZJVg==", [("p", "bob")], none⟩

/-- A local key whose decryption oracle always fails (wrong key or corrupt
payload). -/
def c1_priv_fail : PrivKey := ⟨"alice", fun _ _ => .error "DecryptionError"⟩

/-- Two relays answering the metadata query with `created_at` 100 and 200
(the spec's conflict-resolution scenario). -/
def c2_md_old : ProfileMetadata := ⟨[("name", "old")], none⟩

def c2_md_new : ProfileMetadata :=
  ⟨[("name", "new")], some [⟨"dns", "example.com", "proofurl"⟩]⟩

def c2_parse : String → Option ProfileMetadata :=
  fun s => if s = "m1" then some c2_md_old else if s = "m2" then some c2_md_new else none

def c2_relays : List RelayResult :=
  [⟨"wss://r1", [⟨"ida", "alice", 100, 0, [], "m1", "s"⟩]⟩,
   ⟨"wss://r2", [⟨"idb", "alice", 200, 0, [], "m2", "s"⟩]⟩]

/-- A message pool delivering two parseable metadata candidates, the
older-timestamped one (`created_at` 100) first and the newer (`created_at`
200) second. -/
def c2_pool : List NEvent :=
  [⟨"ida", "alice", 100, 0, [], "m1", "s"⟩, ⟨"idb", "alice", 200, 0, [], "m2", "s"⟩]

/-- The external `json.loads`, parsing both candidates successfully. -/
def c2_jsonLoads : String → Except String (List (String × String)) :=
  fun s =>
    if s = "m1" then .ok [("name", "old")]
    else if s = "m2" then .ok [("name", "new")]
    else .error "JSONDecodeError"

/-- A pool delivering the same event twice (the same event returned by two
relays). -/
def c5_event : NEvent := ⟨"id5", "p5", 7, 4, [["p", "q5"]], "c5", "s5"⟩

def c5_jsonLoads : String → Except String (List (String × String)) := fun _ => .ok []

/-- Two relays none of which yields parseable metadata: the first returns an
event whose content fails the JSON parse, the second returns nothing. -/
def c6_parse : String → Option ProfileMetadata := fun _ => none

def c6_relays : List RelayResult :=
  [⟨"wss://r1", [⟨"id6", "alice", 100, 0, [], "not json", "s"⟩]⟩, ⟨"wss://r2", []⟩]

/-- A direct message whose signature verification fails. -/
def c7_event : NEvent := ⟨"idb", "b", 50, 4, [["p", "a"]], "XYZ?iv=AA==", "sigb"⟩

/-- The external signature check rejecting `c7_event`. -/
def c7_verify : NEvent → Bool := fun _ => false

def c7_priv : PrivKey := ⟨"a", fun c p => .ok (c ++ "/" ++ p)⟩

/-- Two rows of one conversation with equal timestamps and ids in descending
arrival order. -/
def c8_msgA : Msg := ⟨5, "b", "x", "y"⟩

def c8_msgB : Msg := ⟨5, "a", "x", "y"⟩

/-- An event merged into the store by the C9 witness. -/
def c9_event : NEvent := ⟨"id9", "p9", 9, 4, [["p", "q9"]], "c9", "s9"⟩

/-- The empty store. -/
def c9_empty : Store := fun _ => none

/-- Two direct messages of the same conversation whose contents share the
same `?iv=` suffix; the second is iterated later. -/
def c10_e1 : NEvent := ⟨"id1", "a", 10, 4, [["p", "b"]], "AAA?iv=VV==", "s1"⟩

def c10_e2 : NEvent := ⟨"id2", "b", 20, 4, [["p", "a"]], "BBB?iv=VV==", "s2"⟩

def c10_priv : PrivKey := ⟨"a", fun c p => .ok (c ++ "|" ++ p)⟩

/-- The map `decrypt_dm_events [c10_e1, c10_e2] c10_priv` evaluates to: the
later event's entry has replaced the earlier one at the shared
(conversation key, iv) slot. -/
def c10_map : DmMap := [(("a", "b"), [("VV", ⟨"BBB?iv=VV==|b", 20, "b"⟩)])]

/-! ## Helper lemmas -/

theorem assocGet_assocPut_self {α β : Type} [DecidableEq α]
    (m : List (α × β)) (k : α) (v : β) : assocGet (assocPut m k v) k = some v := by
  induction m with
  | nil => simp [assocPut, assocGet]
  | cons p rest ih =>
    by_cases h : p.1 = k
    · simp [assocPut, assocGet, h]
    · simp [assocPut, assocGet, h, ih]

theorem mem_assocPut {α β : Type} [DecidableEq α]
    (m : List (α × β)) (k : α) (v : β) (p : α × β) (hp : p ∈ assocPut m k v) :
    p = (k, v) ∨ p ∈ m := by
  induction m with
  | nil => simpa [assocPut] using hp
  | cons q rest ih =>
    by_cases h : q.1 = k
    · simp only [assocPut, h, if_pos] at hp
      rcases List.mem_cons.mp hp with h1 | h2
      · exact Or.inl h1
      · exact Or.inr (List.mem_cons_of_mem _ h2)
    · simp only [assocPut, h, if_neg, not_false_iff] at hp
      rcases List.mem_cons.mp hp with h1 | h2
      · exact Or.inr (h1 ▸ List.mem_cons_self _ _)
      · rcases ih h2 with h3 | h4
        · exact Or.inl h3
        · exact Or.inr (List.mem_cons_of_mem _ h4)

theorem map_fst_assocPut {α β : Type} [DecidableEq α]
    (m : List (α × β)) (k : α) (v : β) :
    (assocPut m k v).map Prod.fst =
      if k ∈ m.map Prod.fst then m.map Prod.fst else m.map Prod.fst ++ [k] := by
  induction m with
  | nil => simp [assocPut]
  | cons q rest ih =>
    by_cases h : q.1 = k
    · simp [assocPut, h]
    · have h' : ¬ k = q.1 := fun hk => h hk.symm
      simp [assocPut, h, h', ih]
      by_cases hk : k ∈ rest.map Prod.fst <;> simp [hk, h']

theorem nodup_map_fst_assocPut {α β : Type} [DecidableEq α]
    (m : List (α × β)) (k : α) (v : β) (h : (m.map Prod.fst).Nodup) :
    ((assocPut m k v).map Prod.fst).Nodup := by
  rw [map_fst_assocPut]
  by_cases hk : k ∈ m.map Prod.fst
  · simpa [hk] using h
  · simp only [hk, if_neg, not_false_iff]
    refine List.Nodup.append h (List.nodup_singleton _) ?_
    intro x hx hx'
    rw [List.mem_singleton] at hx'
    subst hx'
    exact hk hx

theorem assocGet_mem {α β : Type} [DecidableEq α]
    (m : List (α × β)) (k : α) (v : β) (h : assocGet m k = some v) : (k, v) ∈ m := by
  induction m with
  | nil => simp [assocGet] at h
  | cons q rest ih =>
    obtain ⟨q1, q2⟩ := q
    by_cases hq : q1 = k
    · simp only [assocGet, hq, if_pos] at h
      cases h
      subst hq
      exact List.mem_cons_self _ _
    · simp only [assocGet, hq, if_neg, not_false_iff] at h
      exact List.mem_cons_of_mem _ (ih h)

/-- Well-formedness of the `decrypt_dm_events` result: conversation keys are
pairwise distinct, and so are the iv keys of each inner dict — at most one
message per (conversation key, iv) pair. -/
def dmMapWF (m : DmMap) : Prop :=
  (m.map Prod.fst).Nodup ∧ ∀ p ∈ m, (p.2.map Prod.fst).Nodup

theorem dmEventStep_wf (priv : PrivKey) (dms : DmMap) (e : NEvent) (m : DmMap)
    (hwf : dmMapWF dms) (h : dmEventStep priv dms e = .ok m) : dmMapWF m := by
  cases htags : tagPairs e.tags with
  | error msg => simp [dmEventStep, htags] at h
  | ok ps =>
    cases hp : dictLookup ps "p" with
    | none => simp [dmEventStep, htags, hp] at h
    | some tp =>
      cases hdec : (if priv.pub = e.pubkey
                    then priv.decrypt e.content tp
                    else priv.decrypt e.content e.pubkey) with
      | error msg => simp [dmEventStep, htags, hp, hdec] at h
      | ok d =>
        simp only [dmEventStep, htags, hp, hdec, Except.ok.injEq] at h
        subst h
        constructor
        · exact nodup_map_fst_assocPut _ _ _ hwf.1
        · intro p hpmem
          rcases mem_assocPut _ _ _ _ hpmem with rfl | hold
          · apply nodup_map_fst_assocPut
            cases hget : assocGet dms (sortPair e.pubkey tp) with
            | none => simp [hget]
            | some inner =>
              simpa [hget] using hwf.2 _ (assocGet_mem _ _ _ hget)
          · exact hwf.2 _ hold

theorem decryptDmLoop_wf (priv : PrivKey) :
    ∀ (es : List NEvent) (dms m : DmMap), dmMapWF dms →
      decryptDmLoop priv dms es = .ok m → dmMapWF m := by
  intro es
  induction es with
  | nil =>
    intro dms m hwf h
    simp only [decryptDmLoop, Except.ok.injEq] at h
    exact h ▸ hwf
  | cons e rest ih =>
    intro dms m hwf h
    unfold decryptDmLoop at h
    cases hstep : dmEventStep priv dms e with
    | error msg => rw [hstep] at h; exact absurd h (by simp)
    | ok dms' =>
      rw [hstep] at h
      exact ih dms' m (dmEventStep_wf priv dms e dms' hwf hstep) h

theorem decryptDmLoop_append (priv : PrivKey) (es₁ es₂ : List NEvent) (d : DmMap) :
    decryptDmLoop priv d (es₁ ++ es₂) =
      match decryptDmLoop priv d es₁ with
      | .error msg => .error msg
      | .ok d' => decryptDmLoop priv d' es₂ := by
  induction es₁ generalizing d with
  | nil => simp [decryptDmLoop]
  | cons e rest ih =>
    simp only [List.cons_append, decryptDmLoop]
    cases dmEventStep priv d e with
    | error msg => rfl
    | ok d' => exact ih d'

theorem lastRec_mem (S : List NEvent) (k : String) (r : StoredEvent)
    (h : lastRec S k = some r) : ∃ e ∈ S, e.id = k ∧ toRecord e = r := by
  induction S with
  | nil => simp [lastRec] at h
  | cons e S ih =>
    unfold lastRec at h
    cases hS : lastRec S k with
    | some r' =>
      rw [hS] at h
      cases h
      obtain ⟨e', he', hid, hrec⟩ := ih hS
      exact ⟨e', List.mem_cons_of_mem _ he', hid, hrec⟩
    | none =>
      rw [hS] at h
      by_cases hid : e.id = k
      · simp only [hid, if_pos] at h
        cases h
        exact ⟨e, List.mem_cons_self _ _, hid, rfl⟩
      · simp [hid] at h

theorem perm_insertLe {α : Type} (key : α → Nat) (x : α) (l : List α) :
    (insertLe key x l).Perm (x :: l) := by
  induction l with
  | nil => exact List.Perm.refl _
  | cons y ys ih =>
    by_cases h : key x ≤ key y
    · simp [insertLe, h]
    · simp only [insertLe, h, if_neg, not_false_iff]
      exact (ih.cons y).trans (List.Perm.swap x y ys)

theorem perm_pySortOn {α : Type} (key : α → Nat) (l : List α) :
    (pySortOn key l).Perm l := by
  induction l with
  | nil => exact List.Perm.refl _
  | cons x xs ih => exact (perm_insertLe key x (pySortOn key xs)).trans (ih.cons x)

theorem chain'_insertLe {α : Type} (key : α → Nat) (x : α) (l : List α)
    (h : List.Chain' (fun a b => key a ≤ key b) l) :
    List.Chain' (fun a b => key a ≤ key b) (insertLe key x l) := by
  induction l with
  | nil => simp [insertLe]
  | cons y ys ih =>
    by_cases hxy : key x ≤ key y
    · simp only [insertLe, hxy, if_pos]
      exact List.chain'_cons.mpr ⟨hxy, h⟩
    · simp only [insertLe, hxy, if_neg, not_false_iff]
      have hyx : key y ≤ key x := Nat.le_of_lt (Nat.lt_of_not_le hxy)
      refine List.chain'_cons'.mpr ⟨?_, ih h.tail⟩
      intro b hb
      cases ys with
      | nil => simp [insertLe] at hb; exact hb ▸ hyx
      | cons z zs =>
        by_cases hxz : key x ≤ key z
        · simp only [insertLe, hxz, if_pos, List.head?_cons, Option.mem_def,
            Option.some.injEq] at hb
          exact hb ▸ hyx
        · simp only [insertLe, hxz, if_neg, not_false_iff, List.head?_cons,
            Option.mem_def, Option.some.injEq] at hb
          exact hb ▸ (List.chain'_cons.mp h).1

theorem chain'_pySortOn {α : Type} (key : α → Nat) (l : List α) :
    List.Chain' (fun a b => key a ≤ key b) (pySortOn key l) := by
  induction l with
  | nil => simp [pySortOn]
  | cons x xs ih => exact chain'_insertLe key x (pySortOn key xs) ih

theorem chain'_le_getLast? {α : Type} (key : α → Nat) :
    ∀ l : List α, List.Chain' (fun a b => key a ≤ key b) l →
      ∀ x ∈ l, ∀ y, l.getLast? = some y → key x ≤ key y := by
  intro l
  induction l with
  | nil => intro _ x hx; simp at hx
  | cons a t ih =>
    intro h x hx y hy
    cases t with
    | nil =>
      rw [List.mem_singleton] at hx
      simp only [List.getLast?_singleton, Option.some.injEq] at hy
      exact hx ▸ hy ▸ Nat.le_refl _
    | cons b t' =>
      rw [List.getLast?_cons_cons] at hy
      rcases List.mem_cons.mp hx with rfl | hx'
      · exact Nat.le_trans (List.chain'_cons.mp h).1
          (ih (List.chain'_cons.mp h).2 b (List.mem_cons_self _ _) y hy)
      · exact ih (List.chain'_cons.mp h).2 x hx' y hy

theorem mergeStore_apply (S : List NEvent) (st : Store) (k : String) :
    mergeStore S st k =
      match lastRec S k with
      | some r => some r
      | none => st k := by
  induction S generalizing st with
  | nil => simp [mergeStore, lastRec]
  | cons e S ih =>
    show mergeStore S (storePut st e.id (toRecord e)) k = _
    rw [ih]
    cases hS : lastRec S k with
    | some r => simp [lastRec, hS]
    | none =>
      simp only [lastRec, hS, storePut]
      by_cases hid : e.id = k
      · simp [hid]
      · have hid' : ¬ k = e.id := fun hk => hid hk.symm
        simp [hid, hid']

/-! ## Claim theorems -/

/-- C1.  The claim says the direct-message decryption boundary
(`ConversationsScreen.update_ui_with_dms`) always produces a renderable
result for every input event.  The code refutes this: for an event whose
FIRST decryption attempt succeeds, the assignment `dm['decrypted'] =
decrypted` is never executed (it sits inside the outer `except` block, a
mis-indentation), so the successfully decrypted plaintext is dropped and the
subsequent render `self.create_list_item(dm['decrypted'])` raises `KeyError`.
The fallback chain (retry with the author key, then the `json.dumps`
diagnostic dump) only populates `'decrypted'` on the failure paths, which is
plainly a slip against the code's own intent.  The last conjunct shows the
other cited decryptor, `util.decrypt_dm_events`, also violating the claim
from the other side: it catches nothing, so a failing decryption propagates
the exception to the caller instead of yielding an Undecrypted result. -/
theorem update_ui_first_attempt_success_is_unrenderable :
    update_ui_with_dms c1_priv [some c1_event] = .ok [c1_dm]
    ∧ c1_dm.decrypted = none
    ∧ schedule_update_ui [c1_dm] = .error "KeyError: decrypted"
    ∧ decrypt_dm_events [c1_event] c1_priv_fail = .error "DecryptionError" :=
  ⟨rfl, rfl, rfl, rfl⟩

/-- C3, counterexample.  `fetch_profile_data` opens a subscription
(`add_subscription_on_all_relays`, `src/app/util.py:148-149`) and returns
without ever issuing a close for it: the number of closes issued by the time
control returns is 0, not the claimed exactly-one. -/
theorem fetch_profile_subscription_never_closed :
    countSubscribe "sub1" (fetch_profile_data_trace "sub1") = 1
    ∧ countClose "sub1" (fetch_profile_data_trace "sub1") = 0
    ∧ countClose "sub1" (fetch_profile_data_trace "sub1") ≠ 1 := by
  refine ⟨rfl, rfl, ?_⟩
  decide

/-- C3, amended.  Subscriptions opened through `temporary_subscription`
(used by `get_events`) are closed exactly once more than the body itself
closes, on both the normal and the exceptional exit path, and are opened
exactly once; subscriptions opened by `fetch_profile_data` are never closed
before control returns. -/
theorem temporary_subscription_closes_on_every_exit_path :
    (∀ (sid : String) (body : List SubAction) (o : BodyOutcome),
      countClose sid (temporary_subscription_trace sid body o) =
        countClose sid body + 1
      ∧ countSubscribe sid (temporary_subscription_trace sid body o) =
        countSubscribe sid body + 1)
    ∧ (∀ sid : String, countClose sid (fetch_profile_data_trace sid) = 0) := by
  constructor
  · intro sid body o
    cases o <;>
      simp [temporary_subscription_trace, countClose, countSubscribe,
        List.filter_append]
  · intro sid
    simp [fetch_profile_data_trace, countClose]

/-- C4, counterexample.  The claim says every publish either succeeds or
surfaces a transport error to the caller.  `publish_message` catches every
exception (`except Exception: self.logger.error(...)`), so a failed publish
returns normally: the message is dropped with only a log line, and the
caller cannot tell. -/
theorem publish_failure_is_silent :
    (publish_message PubAttempt.otherError false).delivered = false
    ∧ (publish_message PubAttempt.otherError false).raised = false
    ∧ ¬ ((publish_message PubAttempt.otherError false).delivered = true
         ∨ (publish_message PubAttempt.otherError false).raised = true) := by
  refine ⟨rfl, rfl, ?_⟩
  decide

/-- C4, amended.  On a closed-connection report `publish_message` performs
exactly one `run_sync` reopen-and-resync pass and no retry loop; every other
exception is caught and only logged.  In all cases it returns normally —
transport errors are never surfaced to the caller. -/
theorem publish_message_never_raises_and_retries_once :
    ∀ (a : PubAttempt) (r : Bool),
      (publish_message a r).raised = false
      ∧ (publish_message a r).syncRuns =
          (if a = PubAttempt.closedConn then 1 else 0) := by
  intro a r
  cases a <;> simp [publish_message]

/-- C5, counterexample.  The claim says a seen-id set makes all yielded
event ids pairwise distinct.  The drain loop of `get_events` keeps no such
set: a pool that delivers the same event twice (e.g. from two relays) is
yielded verbatim, with a duplicated id. -/
theorem drain_loop_yields_duplicates :
    get_events_drain c5_jsonLoads GKind.dm GReturns.event [c5_event, c5_event]
      = .ok [FetchItem.ev c5_event, FetchItem.ev c5_event]
    ∧ ¬ (yieldedIds [FetchItem.ev c5_event, FetchItem.ev c5_event]).Nodup := by
  refine ⟨rfl, ?_⟩
  decide

/-- C5, amended.  The repository's fetch loop performs no id-based
deduplication: in `returns='event'` mode the yielded id sequence is exactly
the id sequence of the events the message pool delivers, duplicates
included.  (Duplicate suppression, where it happens at all, is either inside
the external message-pool library or downstream in `decrypt_dm_events`,
which overwrites per (conversation key, iv).) -/
theorem drain_loop_is_verbatim (jsonLoads : String → Except String (List (String × String)))
    (kind : GKind) (pool : List NEvent) (out : List FetchItem)
    (h : get_events_drain jsonLoads kind GReturns.event pool = .ok out) :
    yieldedIds out = pool.map NEvent.id := by
  induction pool generalizing out with
  | nil =>
    simp only [get_events_drain, Except.ok.injEq] at h
    subst h
    rfl
  | cons e rest ih =>
    have hstep : drainStep jsonLoads kind GReturns.event e = .ok (.ev e) := rfl
    simp only [get_events_drain, hstep] at h
    cases hrest : get_events_drain jsonLoads kind GReturns.event rest with
    | error msg => rw [hrest] at h; exact absurd h (by simp)
    | ok cs =>
      rw [hrest] at h
      simp only [Except.ok.injEq] at h
      subst h
      simpa [yieldedIds] using ih cs hrest

/-- C5, amended, witness: the drain-loop characterization applied to the
duplicated two-event pool. -/
theorem drain_loop_is_verbatim_witness :
    yieldedIds [FetchItem.ev c5_event, FetchItem.ev c5_event] =
      [c5_event, c5_event].map NEvent.id :=
  drain_loop_is_verbatim c5_jsonLoads GKind.dm [c5_event, c5_event]
    [FetchItem.ev c5_event, FetchItem.ev c5_event] rfl

/-- C2, counterexample.  The claim quantifies over every profile fetch, but
the cited `load_user_profile` (`src/nostrmail/utils.py:228-234`) returns
`profile_events[0]` — the first parsed metadata candidate in pool arrival
order — with no `created_at` comparison and no identity-claim attachment.
With parseable candidates of `created_at` 100 (arriving first) and 200, it
returns the 100 candidate's metadata, not the greatest-`created_at`
candidate the claim requires. -/
theorem load_user_profile_returns_first_not_most_recent :
    load_user_profile c2_jsonLoads c2_pool
      = .ok (some (FetchItem.obj [("name", "old")]))
    ∧ c2_pool.map NEvent.created_at = [100, 200]
    ∧ c2_jsonLoads "m2" = .ok [("name", "new")]
    ∧ FetchItem.obj [("name", "old")] ≠ FetchItem.obj [("name", "new")]
    ∧ load_user_profile c2_jsonLoads c2_pool
        ≠ .ok (some (FetchItem.obj [("name", "new")])) := by
  refine ⟨rfl, rfl, rfl, by decide, ?_⟩
  intro h
  rw [show load_user_profile c2_jsonLoads c2_pool
        = .ok (some (FetchItem.obj [("name", "old")])) from rfl] at h
  simp at h

/-- C2, amended.  For profile fetches through
`NostrRelayManager.fetch_profile_data`: whenever at least one relay yields a
successfully parsed metadata candidate, the returned profile is the metadata
of a candidate whose `created_at` timestamp is maximal among all parsed
candidates (most-recent-wins: the sorted-ascending list is indexed at
`[-1]`), and the `result` dict carries that winning candidate's
identity-claim array as `identities_info` whenever the winning metadata has
one.  (The nostrmail path `load_user_profile` has no such selection — see
the counterexample above.) -/
theorem fetch_profile_most_recent_wins (parse : String → Option ProfileMetadata)
    (rs : List RelayResult) (hne : eventsByRelay parse rs ≠ []) :
    ∃ p ∈ eventsByRelay parse rs,
      (∀ q ∈ eventsByRelay parse rs, q.2.timestamp ≤ p.2.timestamp)
      ∧ fetch_profile_data parse rs = .ok p.2.metadata
      ∧ fetch_profile_result parse rs =
          .ok ⟨p.1, p.2.metadata, p.2.metadata.identities⟩ := by
  have hperm := perm_pySortOn (fun p : String × Candidate => p.2.timestamp)
    (eventsByRelay parse rs)
  have hsne : pySortOn (fun p : String × Candidate => p.2.timestamp)
      (eventsByRelay parse rs) ≠ [] := by
    intro h0
    exact hne (List.eq_nil_of_length_eq_zero (by rw [← hperm.length_eq, h0]; rfl))
  have hlast := List.getLast?_eq_getLast_of_ne_nil hsne
  refine ⟨(pySortOn (fun p : String × Candidate => p.2.timestamp)
    (eventsByRelay parse rs)).getLast hsne, ?_, ?_, ?_, ?_⟩
  · exact hperm.mem_iff.mp (List.getLast_mem hsne)
  · intro q hq
    exact chain'_le_getLast? (fun p : String × Candidate => p.2.timestamp) _
      (chain'_pySortOn _ _) q (hperm.mem_iff.mpr hq) _ hlast
  · unfold fetch_profile_data fetch_profile_result
    rw [hlast]
    rfl
  · unfold fetch_profile_result
    rw [hlast]

/-- C2, amended, witness: two relays answering with `created_at` 100 and
200; through `fetch_profile_data` the 200 candidate (with its identity
claims) wins. -/
theorem fetch_profile_most_recent_wins_witness :
    ∃ p ∈ eventsByRelay c2_parse c2_relays,
      (∀ q ∈ eventsByRelay c2_parse c2_relays, q.2.timestamp ≤ p.2.timestamp)
      ∧ fetch_profile_data c2_parse c2_relays = .ok p.2.metadata
      ∧ fetch_profile_result c2_parse c2_relays =
          .ok ⟨p.1, p.2.metadata, p.2.metadata.identities⟩ :=
  fetch_profile_most_recent_wins c2_parse c2_relays (by decide)

/-- C6.  The claim (and the spec) say a profile fetch in which zero relays
yield parseable metadata returns an absent value without raising.  In
`fetch_profile_data` the empty-candidate case reaches
`relay_list_sorted[-1]` on an empty list, which raises `IndexError` — an
unguarded indexing slip (the sibling `load_profile_data` handles the empty
case gracefully), so the code, not the claim, is wrong. -/
theorem fetch_profile_empty_raises_index_error :
    fetch_profile_data c6_parse c6_relays = .error "IndexError: list index out of range"
    ∧ eventsByRelay c6_parse c6_relays = [] :=
  ⟨rfl, rfl⟩

/-- C7.  The claim says every fetched DM whose signature verification fails
is marked `valid=False` and never appears in the decrypted/threaded output.
The nostrmail pipeline does mark it (first conjunct), but
`NostrRelayManager.get_dms` (`src/app/util.py:323`) — whose own docstring
promises the same marking — never calls `verify()` at all: the
bad-signature event flows straight into `decrypt_dm_events` and appears,
decrypted, in the conversation output (second conjunct). -/
theorem unverified_dm_reaches_decrypted_output :
    nostrmail_get_dms c7_verify "a" [c7_event] = .ok [NmDm.invalid "idb"]
    ∧ c7_verify c7_event = false
    ∧ app_get_dms c7_priv [] [c7_event] =
        .ok [(("a", "b"), [("AA", ⟨"XYZ?iv=AA==/b", 50, "b"⟩)])] :=
  ⟨rfl, rfl, rfl⟩

/-- C8, counterexample.  The claim says equal-timestamp messages are ordered
deterministically by event id, so the same multiset yields the same order
regardless of arrival order.  `update_inbox` sorts each bucket by the
`time` index alone: two equal-timestamp rows keep their arrival order, so
the two arrival orders of the same two messages produce different outputs,
and neither is ordered by event id. -/
theorem thread_bucket_tie_order_depends_on_arrival :
    threadBucket [c8_msgA, c8_msgB] ("x", "y") = [c8_msgA, c8_msgB]
    ∧ threadBucket [c8_msgB, c8_msgA] ("x", "y") = [c8_msgB, c8_msgA]
    ∧ ([c8_msgA, c8_msgB] : List Msg).Perm [c8_msgB, c8_msgA]
    ∧ threadBucket [c8_msgA, c8_msgB] ("x", "y")
        ≠ threadBucket [c8_msgB, c8_msgA] ("x", "y")
    ∧ c8_msgA.time = c8_msgB.time ∧ c8_msgA.event_id ≠ c8_msgB.event_id := by
  refine ⟨rfl, rfl, List.Perm.swap c8_msgB c8_msgA [], ?_, rfl, ?_⟩ <;> decide

/-- C9.  Merging a batch of events into the persisted store is a fold of
id-keyed puts: merging the same batch twice leaves the store in exactly the
same state as merging it once; no key present before the merge disappears;
and — given that any record already stored under an event's id is that
event's record, which the protocol's id-is-content-hash invariant
guarantees — no previously stored record is mutated. -/
theorem merge_store_idempotent (S : List NEvent) (st : Store)
    (hcons : ∀ e ∈ S, ∀ r, st e.id = some r → r = toRecord e) :
    mergeStore S (mergeStore S st) = mergeStore S st
    ∧ (∀ k, (st k).isSome → (mergeStore S st k).isSome)
    ∧ (∀ k r, st k = some r → mergeStore S st k = some r) := by
  refine ⟨funext fun k => ?_, fun k h => ?_, fun k r h => ?_⟩
  · rw [mergeStore_apply]
    cases hl : lastRec S k with
    | none => simp
    | some r => rw [mergeStore_apply, hl]
  · rw [mergeStore_apply]
    cases hl : lastRec S k with
    | none => exact h
    | some r => simp
  · rw [mergeStore_apply]
    cases hl : lastRec S k with
    | none => exact h
    | some r' =>
      obtain ⟨e, he, hid, hrec⟩ := lastRec_mem S k r' hl
      have hr : r = toRecord e := hcons e he r (by rw [hid]; exact h)
      rw [hr, hrec]

/-- C9, witness: merging a concrete one-event batch into the empty store. -/
theorem merge_store_idempotent_witness :
    mergeStore [c9_event] (mergeStore [c9_event] c9_empty) =
      mergeStore [c9_event] c9_empty
    ∧ (∀ k, (c9_empty k).isSome → (mergeStore [c9_event] c9_empty k).isSome)
    ∧ (∀ k r, c9_empty k = some r → mergeStore [c9_event] c9_empty k = some r) :=
  merge_store_idempotent [c9_event] c9_empty
    (by intro e he r hr; exact absurd hr (by simp [c9_empty]))

/-- C10.  In `decrypt_dm_events`, whenever processing the whole input list
succeeds, the entry stored under the last event's (conversation key, iv)
pair is exactly that last event's decryption — any entry an earlier event
put at the same slot has been silently replaced — and the returned mapping
is a well-formed nested dict: conversation keys are pairwise distinct and so
are the iv keys within each conversation, i.e. at most one message per
(conversation key, iv) pair. -/
theorem decrypt_dm_later_event_wins (priv : PrivKey) (es : List NEvent)
    (e : NEvent) (m : DmMap)
    (h : decrypt_dm_events (es ++ [e]) priv = .ok m) :
    (∃ ps tp d inner,
      tagPairs e.tags = .ok ps
      ∧ dictLookup ps "p" = some tp
      ∧ (if priv.pub = e.pubkey then priv.decrypt e.content tp
         else priv.decrypt e.content e.pubkey) = .ok d
      ∧ assocGet m (sortPair e.pubkey tp) = some inner
      ∧ assocGet inner (get_encryption_iv e.content)
          = some ⟨d, e.created_at, e.pubkey⟩)
    ∧ dmMapWF m := by
  unfold decrypt_dm_events at h
  rw [decryptDmLoop_append] at h
  cases hes : decryptDmLoop priv [] es with
  | error msg => rw [hes] at h; exact absurd h (by simp)
  | ok d0 =>
    rw [hes] at h
    have hstep : dmEventStep priv d0 e = .ok m := by
      cases hst : dmEventStep priv d0 e with
      | error msg => simp [decryptDmLoop, hst] at h
      | ok d' =>
        simp only [decryptDmLoop, hst, Except.ok.injEq] at h
        rw [h]
    have hwf0 : dmMapWF d0 :=
      decryptDmLoop_wf priv es [] d0 ⟨by simp, by simp⟩ hes
    have hwfm : dmMapWF m := dmEventStep_wf priv d0 e m hwf0 hstep
    cases htags : tagPairs e.tags with
    | error msg => simp [dmEventStep, htags] at hstep
    | ok ps =>
      cases hp : dictLookup ps "p" with
      | none => simp [dmEventStep, htags, hp] at hstep
      | some tp =>
        cases hdec : (if priv.pub = e.pubkey then priv.decrypt e.content tp
                      else priv.decrypt e.content e.pubkey) with
        | error msg => simp [dmEventStep, htags, hp, hdec] at hstep
        | ok d =>
          simp only [dmEventStep, htags, hp, hdec, Except.ok.injEq] at hstep
          subst hstep
          exact ⟨⟨ps, tp, d, _, rfl, hp, hdec,
            assocGet_assocPut_self _ _ _, assocGet_assocPut_self _ _ _⟩, hwfm⟩

/-- C10, witness: two concrete direct messages of the same conversation
sharing the `?iv=VV==` suffix; the later one's decryption occupies the
single slot. -/
theorem decrypt_dm_later_event_wins_witness :
    (∃ ps tp d inner,
      tagPairs c10_e2.tags = .ok ps
      ∧ dictLookup ps "p" = some tp
      ∧ (if c10_priv.pub = c10_e2.pubkey then c10_priv.decrypt c10_e2.content tp
         else c10_priv.decrypt c10_e2.content c10_e2.pubkey) = .ok d
      ∧ assocGet c10_map (sortPair c10_e2.pubkey tp) = some inner
      ∧ assocGet inner (get_encryption_iv c10_e2.content)
          = some ⟨d, c10_e2.created_at, c10_e2.pubkey⟩)
    ∧ dmMapWF c10_map :=
  decrypt_dm_later_event_wins c10_priv [c10_e1] c10_e2 c10_map rfl

/-- C8, amended.  Each conversation bucket is the multiset of the
conversation's rows ordered by timestamp ascending; no event-id tie-break is
applied, so the relative order of equal-timestamp messages is whatever the
sort leaves of the arrival order. -/
theorem thread_bucket_sorted_by_time :
    ∀ (msgs : List Msg) (ck : String × String),
      List.Chain' (fun a b => a.time ≤ b.time) (threadBucket msgs ck)
      ∧ (threadBucket msgs ck).Perm (msgs.filter (fun m => convOf m = ck)) := by
  intro msgs ck
  exact ⟨chain'_pySortOn (fun m : Msg => m.time) _,
    perm_pySortOn (fun m : Msg => m.time) _⟩

end NostrMail
